import Mathlib

set_option maxHeartbeats 1000000

/-!
Verification development for the Project-X LP analysis bot (`src/index.js`).

The bot persists extracted portfolio data into three PostgreSQL tables
(`accounts`, `positions`, `daily_history`), calls an external extraction
service through an ordered model cascade, and renders day-over-day growth
reports.  The definitions below are a shallow embedding of that code:

* `DECIMAL` columns are modelled as exact rationals (`ℚ`);
* nullable JSON fields and SQL columns are `Option` values;
* each table is a list of rows inside a `Store`; `SERIAL` ids are
  modelled by the `nextAccountId` counter;
* the JavaScript truthiness coercion `x || 0` is `orZero`, and
  `x || null` on strings is `nameOrNull` (the empty string is falsy);
* SQL `ON CONFLICT ... DO UPDATE` upserts are explicit find/replace
  operations on the row lists, following the unique keys declared in
  `initDatabase` (`UNIQUE(user_id, account_number)` on accounts and
  `UNIQUE(account_id, recorded_at)` on daily_history);
* the `BEGIN`/`COMMIT`/`ROLLBACK` transaction of `saveAccountData` is
  modelled in `saveAccountDataTx`: queries run against a working copy of
  the store and only `COMMIT` publishes it, while an error leaves the
  committed store untouched.
-/

namespace ProjectX

/-- One position object of the extraction record produced by the AI parser
(fields `pair`, `positionSize`, `apr`, `range`, `currentPrice`, `status`,
`unclaimed` of the JSON schema in `parseAccountDataSmart`). -/
structure PositionData where
  pair : String
  positionSize : Option ℚ
  apr : Option ℚ
  range : Option String
  currentPrice : Option ℚ
  status : Option String
  unclaimed : Option ℚ
deriving DecidableEq

/-- The structured extraction record returned by the AI parser; every field
may be `null` (the system prompt demands `null` for missing values). -/
structure ExtractionRecord where
  saldo : Option ℚ
  totalPoints : Option ℚ
  pointsChange : Option ℚ
  rank : Option String
  totalFees : Option ℚ
  feesToday : Option ℚ
  pendingYield : Option ℚ
  positions : Option (List PositionData)
  accountNumber : Option Nat
  accountName : Option String
deriving DecidableEq

/-- A row of the `accounts` table (`initDatabase`): key `(user_id,
account_number)` is unique, `id` is the SERIAL primary key. -/
structure AccountRow where
  id : Nat
  user_id : Int
  account_number : Nat
  saldo : ℚ
  total_points : ℚ
  total_fees : ℚ
  pending_yield : ℚ
  account_name : Option String
deriving DecidableEq

/-- A row of the `positions` table; `in_range BOOLEAN DEFAULT TRUE`.
`position_size` and `apr` are nullable because the insert in
`saveAccountData` passes the extracted values through unchanged. -/
structure PositionRow where
  account_id : Nat
  pair : String
  position_size : Option ℚ
  apr : Option ℚ
  in_range : Bool
deriving DecidableEq

/-- A row of the `daily_history` table; key `(account_id, recorded_at)` is
unique.  Days are modelled as natural numbers. -/
structure DailyRow where
  account_id : Nat
  saldo : ℚ
  total_points : ℚ
  total_fees : ℚ
  recorded_at : Nat
deriving DecidableEq

/-- The persistent store: the three tables plus the accounts SERIAL
counter. -/
structure Store where
  accounts : List AccountRow
  positions : List PositionRow
  daily_history : List DailyRow
  nextAccountId : Nat
deriving DecidableEq

/-- JavaScript `v || 0` on a nullable number: `null` (and `0`) become `0`. -/
def orZero (v : Option ℚ) : ℚ := v.getD 0

/-- JavaScript `v || null` on a nullable string: the empty string is falsy
and becomes `null`. -/
def nameOrNull (v : Option String) : Option String :=
  match v with
  | some s => if s = "" then none else some s
  | none => none

/-- `COALESCE(NULLIF(excluded, 0), old)` — the non-zero-wins merge used for
the numeric columns of the account upsert. -/
def mergeNum (excluded old : ℚ) : ℚ := if excluded = 0 then old else excluded

/-- The `WHERE user_id = $1 AND account_number = $2` predicate. -/
def accountKey (a : AccountRow) (uid : Int) (accNum : Nat) : Bool :=
  a.user_id == uid && a.account_number == accNum

/-- `SELECT ... FROM accounts WHERE user_id = $1 AND account_number = $2`
(at most one row by the unique key). -/
def lookupAccount (s : Store) (uid : Int) (accNum : Nat) : Option AccountRow :=
  s.accounts.find? (fun a => accountKey a uid accNum)

/-- The `DO UPDATE SET` arm of the account upsert in `saveAccountData`:
numeric columns use `COALESCE(NULLIF(EXCLUDED.c, 0), accounts.c)` where the
`EXCLUDED` values are `data.saldo || 0` etc., and `account_name` uses
`COALESCE(EXCLUDED.account_name, accounts.account_name)` with
`EXCLUDED.account_name = data.accountName || null`. -/
def mergedAccount (old : AccountRow) (data : ExtractionRecord) : AccountRow :=
  { old with
    saldo := mergeNum (orZero data.saldo) old.saldo
    total_points := mergeNum (orZero data.totalPoints) old.total_points
    total_fees := mergeNum (orZero data.totalFees) old.total_fees
    pending_yield := mergeNum (orZero data.pendingYield) old.pending_yield
    account_name :=
      match nameOrNull data.accountName with
      | some n => some n
      | none => old.account_name }

/-- The plain `INSERT` arm of the account upsert (no conflicting row):
values are `data.saldo || 0`, …, `data.accountName || null`. -/
def freshAccount (id : Nat) (uid : Int) (accNum : Nat) (data : ExtractionRecord) : AccountRow :=
  { id := id
    user_id := uid
    account_number := accNum
    saldo := orZero data.saldo
    total_points := orZero data.totalPoints
    total_fees := orZero data.totalFees
    pending_yield := orZero data.pendingYield
    account_name := nameOrNull data.accountName }

/-- The whole `INSERT ... ON CONFLICT (user_id, account_number) DO UPDATE
... RETURNING id, saldo, total_points, total_fees` statement: returns the
updated store and the resulting account row. -/
def accountUpsert (s : Store) (uid : Int) (accNum : Nat) (data : ExtractionRecord) :
    Store × AccountRow :=
  match lookupAccount s uid accNum with
  | some old =>
      ({ s with
          accounts := s.accounts.map fun a =>
            if accountKey a uid accNum then mergedAccount a data else a },
       mergedAccount old data)
  | none =>
      ({ s with
          accounts := s.accounts ++ [freshAccount s.nextAccountId uid accNum data]
          nextAccountId := s.nextAccountId + 1 },
       freshAccount s.nextAccountId uid accNum data)

/-- The `(account_id, recorded_at)` unique-key predicate of
`daily_history`. -/
def dailyKey (h : DailyRow) (accId day : Nat) : Bool :=
  h.account_id == accId && h.recorded_at == day

/-- The daily snapshot row written by `saveAccountData` (values come from
the `RETURNING` clause of the account upsert). -/
def dailySnapshotRow (accId day : Nat) (sal pts fees : ℚ) : DailyRow :=
  { account_id := accId, saldo := sal, total_points := pts, total_fees := fees,
    recorded_at := day }

/-- `INSERT INTO daily_history ... VALUES ($1,$2,$3,$4, CURRENT_DATE)
ON CONFLICT (account_id, recorded_at) DO UPDATE SET saldo = EXCLUDED.saldo,
total_points = EXCLUDED.total_points, total_fees = EXCLUDED.total_fees`. -/
def dailyUpsert (hs : List DailyRow) (accId day : Nat) (sal pts fees : ℚ) : List DailyRow :=
  if hs.any (fun h => dailyKey h accId day) then
    hs.map fun h =>
      if dailyKey h accId day then
        { h with saldo := sal, total_points := pts, total_fees := fees }
      else h
  else hs ++ [dailySnapshotRow accId day sal pts fees]

/-- `INSERT INTO positions (account_id, pair, position_size, apr) VALUES
($1,$2,$3,$4)`: the `in_range` column is not listed, so the row carries the
schema default `TRUE` whatever `status`/`range` the extraction produced. -/
def positionRowOf (accId : Nat) (p : PositionData) : PositionRow :=
  { account_id := accId
    pair := p.pair
    position_size := p.positionSize
    apr := p.apr
    in_range := true }

/-- The position block of `saveAccountData`: guarded by
`if (data.positions?.length > 0)`, it deletes all of the account's rows and
inserts the extracted set; with an absent or empty list nothing runs. -/
def replacePositions (ps : List PositionRow) (accId : Nat)
    (newPs : Option (List PositionData)) : List PositionRow :=
  match newPs with
  | some l =>
      if l.length > 0 then
        ps.filter (fun p => !(p.account_id == accId)) ++ l.map (positionRowOf accId)
      else ps
  | none => ps

/-- `saveAccountData(userId, accNum, data)` run at day `today`
(`CURRENT_DATE`): the prior-row select, the account upsert, the
daily-history upsert and the position replacement, returning the final
store, the resulting account row and the pre-existing row (if any), as the
function's `{ account, previous }` result. -/
def saveAccountData (s : Store) (uid : Int) (accNum : Nat) (data : ExtractionRecord)
    (today : Nat) : Store × AccountRow × Option AccountRow :=
  let existing := lookupAccount s uid accNum
  let res := accountUpsert s uid accNum data
  let account := res.2
  let s2 := { res.1 with
    daily_history :=
      dailyUpsert res.1.daily_history account.id today
        account.saldo account.total_points account.total_fees }
  let s3 := { s2 with positions := replacePositions s2.positions account.id data.positions }
  (s3, account, existing)

/-- The ordered text-model list of `parseAccountDataSmart`. -/
def textModels : List String :=
  ["llama-3.3-70b-versatile", "llama-3.1-8b-instant", "qwen/qwen3-32b", "allam-2-7b"]

/-- The `for (const model of models) { try ... } return null` cascade of
`parseAccountDataSmart`.  `oracle m` is the outcome of calling model `m`
once: `some r` when the call and `JSON.parse` succeed with record `r`,
`none` for any failure (timeout, provider error, malformed JSON) — the
`catch` arm logs and continues with the next model. -/
def cascade (oracle : String → Option ExtractionRecord) : List String → Option ExtractionRecord
  | [] => none
  | m :: rest =>
    match oracle m with
    | some r => some r
    | none => cascade oracle rest

/-- The models actually invoked by the cascade, in call order: each failing
model once, then the first succeeding model, and nothing after it. -/
def cascadeCalls (oracle : String → Option ExtractionRecord) : List String → List String
  | [] => []
  | m :: rest =>
    match oracle m with
    | some _ => [m]
    | none => m :: cascadeCalls oracle rest

/-- `parseAccountDataSmart(text)` for a fixed input text, abstracted over
the model-call oracle for that text. -/
def parseAccountDataSmart (oracle : String → Option ExtractionRecord) :
    Option ExtractionRecord :=
  cascade oracle textModels

/-- Sequential `INSERT INTO positions ...` loop inside the transaction;
`fails` gives each query (numbered from `k`) a failure outcome, a thrown
error aborts the remaining inserts. -/
def insertPositionsTx (ps : List PositionRow) (accId : Nat) (l : List PositionData)
    (fails : Nat → Bool) (k : Nat) : Except Unit (List PositionRow) :=
  match l with
  | [] => Except.ok ps
  | p :: rest =>
      if fails k then Except.error ()
      else insertPositionsTx (ps ++ [positionRowOf accId p]) accId rest fails (k + 1)

/-- The body of `saveAccountData` between `BEGIN` and `COMMIT`, with a
failure outcome `fails i` for the `i`-th SQL statement (0 = prior-row
select, 1 = account upsert, 2 = daily upsert, 3 = position delete, `4 + j`
= `j`-th position insert).  Queries act on a working copy of the store;
a failure propagates out as `Except.error` (the `throw e` after
`ROLLBACK`). -/
def saveAccountDataTx (s : Store) (uid : Int) (accNum : Nat) (data : ExtractionRecord)
    (today : Nat) (fails : Nat → Bool) :
    Except Unit (Store × AccountRow × Option AccountRow) :=
  if fails 0 then Except.error () else
  let existing := lookupAccount s uid accNum
  if fails 1 then Except.error () else
  let res := accountUpsert s uid accNum data
  let account := res.2
  if fails 2 then Except.error () else
  let s2 := { res.1 with
    daily_history :=
      dailyUpsert res.1.daily_history account.id today
        account.saldo account.total_points account.total_fees }
  match data.positions with
  | some l =>
      if l.length > 0 then
        if fails 3 then Except.error () else
        let base := s2.positions.filter (fun p => !(p.account_id == account.id))
        match insertPositionsTx base account.id l fails 4 with
        | Except.ok ps => Except.ok ({ s2 with positions := ps }, account, existing)
        | Except.error e => Except.error e
      else Except.ok (s2, account, existing)
  | none => Except.ok (s2, account, existing)

/-- The store visible after the call: `COMMIT` publishes the working store,
while the `catch` arm issues `ROLLBACK`, leaving the store as it was when
`BEGIN` ran. -/
def committedStore (s : Store) (uid : Int) (accNum : Nat) (data : ExtractionRecord)
    (today : Nat) (fails : Nat → Bool) : Store :=
  match saveAccountDataTx s uid accNum data today fails with
  | Except.ok out => out.1
  | Except.error _ => s

/-- The `confirm_delete_all` action: `DELETE FROM accounts WHERE user_id =
$1`, with the `ON DELETE CASCADE` clauses of `positions` and
`daily_history` removing every row referencing a deleted account. -/
def confirmDeleteAll (s : Store) (uid : Int) : Store :=
  let deletedIds := (s.accounts.filter (fun a => a.user_id == uid)).map (fun a => a.id)
  { s with
    accounts := s.accounts.filter (fun a => !(a.user_id == uid))
    positions := s.positions.filter (fun p => !(deletedIds.contains p.account_id))
    daily_history := s.daily_history.filter (fun h => !(deletedIds.contains h.account_id)) }

/-- Keep the row with the later `recorded_at` (the running maximum of the
`ORDER BY recorded_at DESC LIMIT 1` selection). -/
def laterOf (best : Option DailyRow) (h : DailyRow) : Option DailyRow :=
  match best with
  | none => some h
  | some b => if b.recorded_at < h.recorded_at then some h else some b

/-- `SELECT * FROM daily_history WHERE account_id = $1 AND recorded_at <
CURRENT_DATE ORDER BY recorded_at DESC LIMIT 1` — the single most recent
snapshot strictly before today. -/
def latestPriorSnapshot (hs : List DailyRow) (accId today : Nat) : Option DailyRow :=
  (hs.filter (fun h => h.account_id == accId && decide (h.recorded_at < today))).foldl
    laterOf none

/-- `const diffSaldo = prev ? (acc.saldo - prev.saldo) : 0` in the
`analyze_acc_` handler. -/
def analysisDiffSaldo (hs : List DailyRow) (acc : AccountRow) (today : Nat) : ℚ :=
  match latestPriorSnapshot hs acc.id today with
  | some prev => acc.saldo - prev.saldo
  | none => 0

/-- `const diffPoints = prev ? (acc.total_points - prev.total_points) : 0`. -/
def analysisDiffPoints (hs : List DailyRow) (acc : AccountRow) (today : Nat) : ℚ :=
  match latestPriorSnapshot hs acc.id today with
  | some prev => acc.total_points - prev.total_points
  | none => 0

/-- The per-position status text of the analysis view: the handler prints
the literal `Status: In Range` for every row, reading nothing from it. -/
def renderPositionStatus (_p : PositionRow) : String := "In Range"

/-- What the bot is waiting for next, the `inputMode` of a session. -/
inductive InputMode
  | waiting_data
  | waiting_saldo
deriving DecidableEq

/-- A `userSessions` entry: the mode, the pending extraction (set after a
successful parse) and the chosen slot (set when the manual-saldo prompt is
issued). -/
structure Session where
  inputMode : InputMode
  pendingData : Option ExtractionRecord
  accNum : Option Nat
deriving DecidableEq

/-- The bot replies relevant to the manual-balance flow. -/
inductive BotReply
  | promptManualSaldo (accNum : Nat)
  | savedConfirm (accNum : Nat)
  | invalidSaldo
  | savedWithSaldo (accNum : Nat)
  | noReply
deriving DecidableEq

/-- `text.replace(/[^0-9.]/g, '')` — strip every character that is not a
digit or a dot. -/
def sanitizeSaldo (s : String) : String :=
  ⟨s.toList.filter (fun c => c.isDigit || c == '.')⟩

/-- The numeric value of a digit string. -/
def digitsToNat (l : List Char) : Nat :=
  l.foldl (fun acc c => acc * 10 + (c.toNat - 48)) 0

/-- JavaScript `parseFloat` restricted to digit/dot strings (all that can
survive `sanitizeSaldo`): parse the longest valid numeric prefix, `none`
for `NaN`. -/
def parseFloatQ (s : String) : Option ℚ :=
  let cs := s.toList
  let intPart := cs.takeWhile Char.isDigit
  let rest := cs.dropWhile Char.isDigit
  match rest with
  | '.' :: rest2 =>
      let fracPart := rest2.takeWhile Char.isDigit
      if intPart = [] ∧ fracPart = [] then none
      else some ((digitsToNat intPart : ℚ) + (digitsToNat fracPart : ℚ) / (10 ^ fracPart.length : ℚ))
  | _ => if intPart = [] then none else some ((digitsToNat intPart : ℚ))

/-- The `save_to_N` callback handler: with a pending extraction whose
`saldo === null`, remember the slot, switch to `waiting_saldo` and prompt
for a manual entry (no write); otherwise persist and clear the session. -/
def saveToHandler (uid : Int) (accNum : Nat) (session : Option Session) (store : Store)
    (today : Nat) : Option Session × Store × BotReply :=
  match session with
  | some sess =>
      match sess.pendingData with
      | some data =>
          if data.saldo = none then
            (some { sess with accNum := some accNum, inputMode := InputMode.waiting_saldo },
             store, BotReply.promptManualSaldo accNum)
          else
            (none, (saveAccountData store uid accNum data today).1,
             BotReply.savedConfirm accNum)
      | none => (session, store, BotReply.noReply)
  | none => (session, store, BotReply.noReply)

/-- The `waiting_saldo` branch of the text handler: sanitize and parse the
message; `NaN` gets a reprompt with no write; a number is assigned to
`data.saldo` and the record is saved to the remembered slot.  (A
`waiting_saldo` session always carries `pendingData` and `accNum`, both set
by `saveToHandler`; the final arm is unreachable in the state machine.) -/
def waitingSaldoHandler (uid : Int) (input : String) (sess : Session) (store : Store)
    (today : Nat) : Option Session × Store × BotReply :=
  match parseFloatQ (sanitizeSaldo input) with
  | none => (some sess, store, BotReply.invalidSaldo)
  | some v =>
      match sess.pendingData, sess.accNum with
      | some data, some accNum =>
          (none, (saveAccountData store uid accNum { data with saldo := some v } today).1,
           BotReply.savedWithSaldo accNum)
      | _, _ => (some sess, store, BotReply.noReply)

/-! ### Generic list lemmas -/

theorem find?_append_none {α : Type} (p : α → Bool) {l₁ : List α} (l₂ : List α)
    (h : l₁.find? p = none) : (l₁ ++ l₂).find? p = l₂.find? p := by
  simp [List.find?_append, h]

theorem find?_congr_pred {α : Type} {p q : α → Bool} (h : ∀ a, p a = q a)
    (l : List α) : l.find? p = l.find? q := by
  induction l with
  | nil => rfl
  | cons a t ih =>
      cases hqa : q a with
      | true =>
          rw [List.find?_cons_of_pos _ (by rw [h a]; exact hqa),
            List.find?_cons_of_pos _ hqa]
      | false =>
          rw [List.find?_cons_of_neg _ (by simp [h a, hqa]),
            List.find?_cons_of_neg _ (by simp [hqa])]
          exact ih

theorem find?_map_pred {α : Type} (p : α → Bool) (f : α → α)
    (hf : ∀ a, p (f a) = p a) (l : List α) :
    (l.map f).find? p = (l.find? p).map f := by
  rw [List.find?_map]
  exact congrArg (Option.map f) (find?_congr_pred (fun a => hf a) l)

/-! ### Account upsert lemmas -/

theorem accountKey_merged (a : AccountRow) (data : ExtractionRecord) (uid : Int)
    (accNum : Nat) : accountKey (mergedAccount a data) uid accNum = accountKey a uid accNum :=
  rfl

theorem accountUpsert_found {s : Store} {uid : Int} {accNum : Nat}
    {data : ExtractionRecord} {a : AccountRow} (h : lookupAccount s uid accNum = some a) :
    (accountUpsert s uid accNum data).2 = mergedAccount a data := by
  simp [accountUpsert, h]

theorem accountUpsert_not_found {s : Store} {uid : Int} {accNum : Nat}
    {data : ExtractionRecord} (h : lookupAccount s uid accNum = none) :
    (accountUpsert s uid accNum data).2 = freshAccount s.nextAccountId uid accNum data := by
  simp [accountUpsert, h]

theorem accountUpsert_lookup (s : Store) (uid : Int) (accNum : Nat)
    (data : ExtractionRecord) :
    lookupAccount (accountUpsert s uid accNum data).1 uid accNum =
      some (accountUpsert s uid accNum data).2 := by
  cases h : lookupAccount s uid accNum with
  | some old =>
      have hfind : s.accounts.find? (fun a => accountKey a uid accNum) = some old := h
      have hk : accountKey old uid accNum = true := by
        simpa using List.find?_some hfind
      have hpres : ∀ a : AccountRow,
          accountKey (if accountKey a uid accNum then mergedAccount a data else a)
              uid accNum =
            accountKey a uid accNum := by
        intro a
        cases ha : accountKey a uid accNum <;> simp [ha, accountKey_merged]
      simp only [accountUpsert, lookupAccount, hfind]
      rw [find?_map_pred _ _ hpres, hfind]
      simp [hk]
  | none =>
      have hfind : s.accounts.find? (fun a => accountKey a uid accNum) = none := h
      simp only [accountUpsert, lookupAccount, hfind]
      rw [find?_append_none _ _ hfind]
      simp [List.find?, accountKey, freshAccount]

theorem lookupAccount_save (s : Store) (uid : Int) (accNum : Nat)
    (data : ExtractionRecord) (today : Nat) :
    lookupAccount (saveAccountData s uid accNum data today).1 uid accNum =
      some (saveAccountData s uid accNum data today).2.1 :=
  accountUpsert_lookup s uid accNum data

/-! ### Sample data used by the witnesses -/

/-- A store holding one account of owner `7` in slot `2` with balance `500`
and one position, and one account of owner `9` in slot `1`. -/
def sampleStore : Store :=
  { accounts :=
      [{ id := 1, user_id := 7, account_number := 2, saldo := 500, total_points := 10,
         total_fees := 3, pending_yield := 1, account_name := none },
       { id := 2, user_id := 9, account_number := 1, saldo := 80, total_points := 4,
         total_fees := 1, pending_yield := 0, account_name := none }],
    positions :=
      [{ account_id := 1, pair := "HYPE/USD", position_size := some 100, apr := some 50,
         in_range := true },
       { account_id := 2, pair := "ETH/USD", position_size := some 30, apr := some 20,
         in_range := true }],
    daily_history :=
      [{ account_id := 1, saldo := 450, total_points := 8, total_fees := 2,
         recorded_at := 4 },
       { account_id := 2, saldo := 70, total_points := 3, total_fees := 1,
         recorded_at := 4 }],
    nextAccountId := 3 }

/-- An extraction record with every field `null`. -/
def emptyRecord : ExtractionRecord :=
  { saldo := none, totalPoints := none, pointsChange := none, rank := none,
    totalFees := none, feesToday := none, pendingYield := none, positions := none,
    accountNumber := none, accountName := none }

/-! ### C1 -/

/-- C1: non-zero-wins merge — for an existing account, `saveAccountData`
overwrites each of balance, points, fees and pending yield only when the
newly extracted value is non-zero/non-null, and otherwise retains the
previously stored value. -/
theorem saveAccountData_nonzero_wins (s : Store) (uid : Int) (accNum : Nat)
    (r : ExtractionRecord) (today : Nat) (a : AccountRow)
    (h : lookupAccount s uid accNum = some a) :
    ∃ a', lookupAccount (saveAccountData s uid accNum r today).1 uid accNum = some a' ∧
      a'.id = a.id ∧
      ((r.saldo = none ∨ r.saldo = some 0) → a'.saldo = a.saldo) ∧
      (∀ v : ℚ, r.saldo = some v → v ≠ 0 → a'.saldo = v) ∧
      ((r.totalPoints = none ∨ r.totalPoints = some 0) → a'.total_points = a.total_points) ∧
      (∀ v : ℚ, r.totalPoints = some v → v ≠ 0 → a'.total_points = v) ∧
      ((r.totalFees = none ∨ r.totalFees = some 0) → a'.total_fees = a.total_fees) ∧
      (∀ v : ℚ, r.totalFees = some v → v ≠ 0 → a'.total_fees = v) ∧
      ((r.pendingYield = none ∨ r.pendingYield = some 0) → a'.pending_yield = a.pending_yield) ∧
      (∀ v : ℚ, r.pendingYield = some v → v ≠ 0 → a'.pending_yield = v) := by
  have hsave : lookupAccount (saveAccountData s uid accNum r today).1 uid accNum =
      some (accountUpsert s uid accNum r).2 := accountUpsert_lookup s uid accNum r
  have h2 : (accountUpsert s uid accNum r).2 = mergedAccount a r := accountUpsert_found h
  refine ⟨mergedAccount a r, by rw [hsave, h2], rfl, ?_, ?_, ?_, ?_, ?_, ?_, ?_, ?_⟩
  · rintro (hv | hv) <;> simp [mergedAccount, mergeNum, orZero, hv]
  · intro v hv hne; simp [mergedAccount, mergeNum, orZero, hv, hne]
  · rintro (hv | hv) <;> simp [mergedAccount, mergeNum, orZero, hv]
  · intro v hv hne; simp [mergedAccount, mergeNum, orZero, hv, hne]
  · rintro (hv | hv) <;> simp [mergedAccount, mergeNum, orZero, hv]
  · intro v hv hne; simp [mergedAccount, mergeNum, orZero, hv, hne]
  · rintro (hv | hv) <;> simp [mergedAccount, mergeNum, orZero, hv]
  · intro v hv hne; simp [mergedAccount, mergeNum, orZero, hv, hne]

/-- C1 witness: in `sampleStore`, owner `7` slot `2` holds `500`; saving a
record with `saldo` null keeps `500`, then saving `saldo = 750` stores
`750`. -/
theorem saveAccountData_nonzero_wins_witness :
    lookupAccount sampleStore 7 2 = some ⟨1, 7, 2, 500, 10, 3, 1, none⟩ ∧
    (∃ a', lookupAccount (saveAccountData sampleStore 7 2 emptyRecord 5).1 7 2 = some a' ∧
      a'.saldo = 500) ∧
    (∃ a', lookupAccount
        (saveAccountData sampleStore 7 2 { emptyRecord with saldo := some 750 } 5).1 7 2 =
        some a' ∧ a'.saldo = 750) := by
  refine ⟨by decide, ?_, ?_⟩
  · obtain ⟨a', h1, _, h3, _⟩ :=
      saveAccountData_nonzero_wins sampleStore 7 2 emptyRecord 5
        ⟨1, 7, 2, 500, 10, 3, 1, none⟩ (by decide)
    exact ⟨a', h1, by rw [h3 (Or.inl rfl)]⟩
  · obtain ⟨a', h1, _, _, h4, _⟩ :=
      saveAccountData_nonzero_wins sampleStore 7 2 { emptyRecord with saldo := some 750 } 5
        ⟨1, 7, 2, 500, 10, 3, 1, none⟩ (by decide)
    exact ⟨a', h1, h4 750 rfl (by norm_num)⟩

/-! ### C4: extraction cascade -/

theorem cascade_eq_find (oracle : String → Option ExtractionRecord) (l : List String) :
    cascade oracle l = (l.find? (fun m => (oracle m).isSome)).bind oracle := by
  induction l with
  | nil => rfl
  | cons m t ih =>
      cases hm : oracle m with
      | some r =>
          rw [cascade, hm, List.find?_cons_of_pos _ (by simp [hm])]
          simp [hm]
      | none =>
          rw [cascade, hm, List.find?_cons_of_neg _ (by simp [hm])]
          exact ih

theorem cascadeCalls_eq (oracle : String → Option ExtractionRecord) (l : List String) :
    cascadeCalls oracle l =
      l.takeWhile (fun m => (oracle m).isNone) ++
        (l.find? (fun m => (oracle m).isSome)).toList := by
  induction l with
  | nil => rfl
  | cons m t ih =>
      cases hm : oracle m with
      | some r =>
          rw [cascadeCalls, hm, List.find?_cons_of_pos _ (by simp [hm])]
          simp [List.takeWhile_cons, hm]
      | none =>
          rw [cascadeCalls, hm, List.find?_cons_of_neg _ (by simp [hm])]
          simp [List.takeWhile_cons, hm, ih]

theorem cascadeCalls_subset (oracle : String → Option ExtractionRecord) :
    ∀ l : List String, ∀ x ∈ cascadeCalls oracle l, x ∈ l := by
  intro l
  induction l with
  | nil => intro x hx; simp [cascadeCalls] at hx
  | cons m t ih =>
      intro x hx
      rw [cascadeCalls] at hx
      cases hm : oracle m with
      | some r => rw [hm] at hx; simp at hx; simp [hx]
      | none =>
          rw [hm] at hx
          rcases List.mem_cons.1 hx with h | h
          · simp [h]
          · exact List.mem_cons_of_mem _ (ih x h)

theorem cascadeCalls_nodup (oracle : String → Option ExtractionRecord) :
    ∀ {l : List String}, l.Nodup → (cascadeCalls oracle l).Nodup := by
  intro l
  induction l with
  | nil => intro _; simp [cascadeCalls]
  | cons m t ih =>
      intro hnd
      rw [List.nodup_cons] at hnd
      rw [cascadeCalls]
      cases hm : oracle m with
      | some r => simp
      | none =>
          rw [List.nodup_cons]
          exact ⟨fun hmem => hnd.1 (cascadeCalls_subset oracle t m hmem), ih hnd.2⟩

/-- C4: the extraction cascade tries the ordered model list strictly in
sequence with no retries within a model, returns the parsed result of the
first model whose call succeeds without calling any later model, and
returns an explicit `none` (never an exception) when every model fails. -/
theorem parseAccountDataSmart_cascade (oracle : String → Option ExtractionRecord) :
    parseAccountDataSmart oracle =
      (textModels.find? (fun m => (oracle m).isSome)).bind oracle ∧
    cascadeCalls oracle textModels =
      textModels.takeWhile (fun m => (oracle m).isNone) ++
        (textModels.find? (fun m => (oracle m).isSome)).toList ∧
    (cascadeCalls oracle textModels).Nodup ∧
    ((∀ m ∈ textModels, oracle m = none) → parseAccountDataSmart oracle = none) ∧
    (∀ r, oracle "llama-3.3-70b-versatile" = none → oracle "llama-3.1-8b-instant" = none →
      oracle "qwen/qwen3-32b" = some r →
      parseAccountDataSmart oracle = some r ∧
        cascadeCalls oracle textModels =
          ["llama-3.3-70b-versatile", "llama-3.1-8b-instant", "qwen/qwen3-32b"]) := by
  refine ⟨cascade_eq_find oracle textModels, cascadeCalls_eq oracle textModels,
    cascadeCalls_nodup oracle (by decide), ?_, ?_⟩
  · intro hall
    have h1 := hall "llama-3.3-70b-versatile" (by simp [textModels])
    have h2 := hall "llama-3.1-8b-instant" (by simp [textModels])
    have h3 := hall "qwen/qwen3-32b" (by simp [textModels])
    have h4 := hall "allam-2-7b" (by simp [textModels])
    simp [parseAccountDataSmart, textModels, cascade, h1, h2, h3, h4]
  · intro r h1 h2 h3
    constructor
    · simp [parseAccountDataSmart, textModels, cascade, h1, h2, h3]
    · simp [cascadeCalls, textModels, h1, h2, h3]

/-- An oracle for which the first two models fail and the third succeeds. -/
def sampleOracle : String → Option ExtractionRecord := fun m =>
  if m = "qwen/qwen3-32b" then some emptyRecord else none

/-- C4 witness: with `sampleOracle` (models 1–2 fail, model 3 succeeds) the
cascade returns model 3's record and never calls model 4. -/
theorem parseAccountDataSmart_cascade_witness :
    sampleOracle "llama-3.3-70b-versatile" = none ∧
    sampleOracle "llama-3.1-8b-instant" = none ∧
    sampleOracle "qwen/qwen3-32b" = some emptyRecord ∧
    parseAccountDataSmart sampleOracle = some emptyRecord ∧
    cascadeCalls sampleOracle textModels =
      ["llama-3.3-70b-versatile", "llama-3.1-8b-instant", "qwen/qwen3-32b"] := by
  obtain ⟨-, -, -, -, h5⟩ := parseAccountDataSmart_cascade sampleOracle
  obtain ⟨ha, hb⟩ := h5 emptyRecord (by decide) (by decide) (by decide)
  exact ⟨by decide, by decide, by decide, ha, hb⟩

/-! ### C5: transaction atomicity -/

theorem insertPositionsTx_ok {accId : Nat} {fails : Nat → Bool} :
    ∀ {l : List PositionData} {ps ps' : List PositionRow} {k : Nat},
      insertPositionsTx ps accId l fails k = Except.ok ps' →
      ps' = ps ++ l.map (positionRowOf accId) := by
  intro l
  induction l with
  | nil =>
      intro ps ps' k h
      rw [insertPositionsTx] at h
      cases h
      simp
  | cons p rest ih =>
      intro ps ps' k h
      rw [insertPositionsTx] at h
      cases hf : fails k with
      | true => rw [hf] at h; simp at h
      | false =>
          rw [hf] at h
          simp only [Bool.false_eq_true, if_false] at h
          rw [ih h]
          simp

/-- C5: save atomicity — the account upsert, the daily-history upsert and
the position replacement of `saveAccountData` run in one transaction:
whatever query errors, the committed store is either exactly the result of
the full (pure) `saveAccountData` or exactly the store from before the
call, never a partial write; an error leaves the store untouched and a
success commits exactly the pure result. -/
theorem saveAccountData_atomic (s : Store) (uid : Int) (accNum : Nat)
    (data : ExtractionRecord) (today : Nat) (fails : Nat → Bool) :
    (saveAccountDataTx s uid accNum data today fails = Except.error () →
      committedStore s uid accNum data today fails = s) ∧
    (∀ out, saveAccountDataTx s uid accNum data today fails = Except.ok out →
      out.1 = (saveAccountData s uid accNum data today).1 ∧
      out.2.1 = (saveAccountData s uid accNum data today).2.1 ∧
      out.2.2 = (saveAccountData s uid accNum data today).2.2 ∧
      committedStore s uid accNum data today fails =
        (saveAccountData s uid accNum data today).1) ∧
    (committedStore s uid accNum data today fails =
        (saveAccountData s uid accNum data today).1 ∨
      committedStore s uid accNum data today fails = s) := by
  have hok : ∀ out, saveAccountDataTx s uid accNum data today fails = Except.ok out →
      out.1 = (saveAccountData s uid accNum data today).1 ∧
      out.2.1 = (saveAccountData s uid accNum data today).2.1 ∧
      out.2.2 = (saveAccountData s uid accNum data today).2.2 := by
    intro out h
    rw [saveAccountDataTx] at h
    cases hf0 : fails 0 with
    | true => rw [hf0] at h; simp at h
    | false =>
    rw [hf0] at h
    simp only [Bool.false_eq_true, if_false] at h
    cases hf1 : fails 1 with
    | true => rw [hf1] at h; simp at h
    | false =>
    rw [hf1] at h
    simp only [Bool.false_eq_true, if_false] at h
    cases hf2 : fails 2 with
    | true => rw [hf2] at h; simp at h
    | false =>
    rw [hf2] at h
    simp only [Bool.false_eq_true, if_false] at h
    cases hdp : data.positions with
    | none =>
        rw [hdp] at h
        cases h
        simp [saveAccountData, replacePositions, hdp]
    | some l =>
        rw [hdp] at h
        cases l with
        | nil =>
            simp only [List.length_nil, gt_iff_lt, Nat.lt_irrefl, if_false] at h
            cases h
            simp [saveAccountData, replacePositions, hdp]
        | cons p rest =>
            simp only [List.length_cons, gt_iff_lt, Nat.succ_pos, if_true] at h
            cases hf3 : fails 3 with
            | true => rw [hf3] at h; simp at h
            | false =>
            rw [hf3] at h
            simp only [Bool.false_eq_true, if_false] at h
            cases hins : insertPositionsTx
                ((accountUpsert s uid accNum data).1.positions.filter
                  (fun q => !(q.account_id == (accountUpsert s uid accNum data).2.id)))
                (accountUpsert s uid accNum data).2.id (p :: rest) fails 4 with
            | error e => rw [hins] at h; simp at h
            | ok ps' =>
                rw [hins] at h
                cases h
                have hps := insertPositionsTx_ok hins
                refine ⟨?_, rfl, rfl⟩
                simp only [saveAccountData, replacePositions, hdp, List.length_cons,
                  gt_iff_lt, Nat.succ_pos, if_true]
                rw [hps]
  refine ⟨?_, fun out h => ⟨(hok out h).1, (hok out h).2.1, (hok out h).2.2, ?_⟩, ?_⟩
  · intro h
    rw [committedStore, h]
  · rw [committedStore, h]
    exact (hok out h).1
  · cases htx : saveAccountDataTx s uid accNum data today fails with
    | error e =>
        right
        rw [committedStore, htx]
    | ok out =>
        left
        rw [committedStore, htx]
        exact (hok out htx).1

/-- C5 witness: with the third query failing the transaction errors and the
committed store is exactly `sampleStore`; with no failure the committed
store is exactly the pure `saveAccountData` result (which differs from
`sampleStore`). -/
theorem saveAccountData_atomic_witness :
    (saveAccountDataTx sampleStore 7 2 emptyRecord 5 (fun i => i == 2) =
        Except.error () ∧
      committedStore sampleStore 7 2 emptyRecord 5 (fun i => i == 2) = sampleStore) ∧
    (committedStore sampleStore 7 2 emptyRecord 5 (fun _ => false) =
        (saveAccountData sampleStore 7 2 emptyRecord 5).1 ∧
      committedStore sampleStore 7 2 emptyRecord 5 (fun _ => false) ≠ sampleStore) := by
  constructor
  · exact ⟨rfl,
      (saveAccountData_atomic sampleStore 7 2 emptyRecord 5 (fun i => i == 2)).1 rfl⟩
  · refine ⟨?_, by decide⟩
    exact ((saveAccountData_atomic sampleStore 7 2 emptyRecord 5 (fun _ => false)).2.2).resolve_right
      (by decide)

/-! ### C7: delete-all frame property -/

/-- C7: `confirm_delete_all` removes every account row of the owner and,
through the cascade, every position and daily-history row referencing one
of the owner's accounts, while every row belonging to any other owner is
left in place.  Account `id`s are assumed unique, as guaranteed by the
SERIAL primary key. -/
theorem confirmDeleteAll_frame (s : Store) (uid : Int)
    (hids : (s.accounts.map (fun a => a.id)).Nodup) :
    (∀ a ∈ (confirmDeleteAll s uid).accounts, a.user_id ≠ uid) ∧
    (∀ a ∈ s.accounts, a.user_id ≠ uid → a ∈ (confirmDeleteAll s uid).accounts) ∧
    (∀ a ∈ (confirmDeleteAll s uid).accounts, a ∈ s.accounts) ∧
    (∀ p ∈ s.positions, ∀ a ∈ s.accounts, p.account_id = a.id → a.user_id = uid →
      p ∉ (confirmDeleteAll s uid).positions) ∧
    (∀ p ∈ s.positions, ∀ a ∈ s.accounts, p.account_id = a.id → a.user_id ≠ uid →
      p ∈ (confirmDeleteAll s uid).positions) ∧
    (∀ h ∈ s.daily_history, ∀ a ∈ s.accounts, h.account_id = a.id → a.user_id = uid →
      h ∉ (confirmDeleteAll s uid).daily_history) ∧
    (∀ h ∈ s.daily_history, ∀ a ∈ s.accounts, h.account_id = a.id → a.user_id ≠ uid →
      h ∈ (confirmDeleteAll s uid).daily_history) := by
  have hinj : ∀ x ∈ s.accounts, ∀ y ∈ s.accounts, x.id = y.id → x = y :=
    List.inj_on_of_nodup_map hids
  have hdel : ∀ n : Nat,
      n ∈ (s.accounts.filter (fun a => a.user_id == uid)).map (fun a => a.id) ↔
        ∃ a, a ∈ s.accounts ∧ a.user_id = uid ∧ a.id = n := by
    intro n
    simp [List.mem_map, List.mem_filter, and_assoc]
  refine ⟨?_, ?_, ?_, ?_, ?_, ?_, ?_⟩
  · intro a ha
    simp only [confirmDeleteAll, List.mem_filter] at ha
    simpa using ha.2
  · intro a ha hne
    simp only [confirmDeleteAll, List.mem_filter]
    simpa [ha] using hne
  · intro a ha
    simp only [confirmDeleteAll, List.mem_filter] at ha
    exact ha.1
  · intro p hp a ha hid huid hmem
    simp only [confirmDeleteAll, List.mem_filter] at hmem
    have : p.account_id ∈ (s.accounts.filter (fun a => a.user_id == uid)).map
        (fun a => a.id) := (hdel p.account_id).2 ⟨a, ha, huid, hid.symm⟩
    simpa [this] using hmem.2
  · intro p hp a ha hid hne
    simp only [confirmDeleteAll, List.mem_filter]
    refine ⟨hp, ?_⟩
    have : p.account_id ∉ (s.accounts.filter (fun a => a.user_id == uid)).map
        (fun a => a.id) := by
      intro hc
      obtain ⟨b, hb, hbu, hbid⟩ := (hdel p.account_id).1 hc
      exact hne (by rw [hinj a ha b hb (hid.symm.trans hbid.symm)]; exact hbu)
    simpa using this
  · intro h hh a ha hid huid hmem
    simp only [confirmDeleteAll, List.mem_filter] at hmem
    have : h.account_id ∈ (s.accounts.filter (fun a => a.user_id == uid)).map
        (fun a => a.id) := (hdel h.account_id).2 ⟨a, ha, huid, hid.symm⟩
    simpa [this] using hmem.2
  · intro h hh a ha hid hne
    simp only [confirmDeleteAll, List.mem_filter]
    refine ⟨hh, ?_⟩
    have : h.account_id ∉ (s.accounts.filter (fun a => a.user_id == uid)).map
        (fun a => a.id) := by
      intro hc
      obtain ⟨b, hb, hbu, hbid⟩ := (hdel h.account_id).1 hc
      exact hne (by rw [hinj a ha b hb (hid.symm.trans hbid.symm)]; exact hbu)
    simpa using this

/-- C7 witness: deleting everything of owner `7` in `sampleStore` removes
account 1 and its position and history rows, while owner `9`'s account,
position and history rows remain. -/
theorem confirmDeleteAll_frame_witness :
    (sampleStore.accounts.map (fun a => a.id)).Nodup ∧
    (∀ a ∈ (confirmDeleteAll sampleStore 7).accounts, a.user_id ≠ 7) ∧
    (⟨2, 9, 1, 80, 4, 1, 0, none⟩ : AccountRow) ∈ (confirmDeleteAll sampleStore 7).accounts ∧
    (⟨1, "HYPE/USD", some 100, some 50, true⟩ : PositionRow) ∉
      (confirmDeleteAll sampleStore 7).positions ∧
    (⟨2, "ETH/USD", some 30, some 20, true⟩ : PositionRow) ∈
      (confirmDeleteAll sampleStore 7).positions ∧
    (⟨1, 450, 8, 2, 4⟩ : DailyRow) ∉ (confirmDeleteAll sampleStore 7).daily_history ∧
    (⟨2, 70, 3, 1, 4⟩ : DailyRow) ∈ (confirmDeleteAll sampleStore 7).daily_history := by
  obtain ⟨h1, h2, -, h4, h5, h6, h7⟩ := confirmDeleteAll_frame sampleStore 7 (by decide)
  refine ⟨by decide, h1, ?_, ?_, ?_, ?_, ?_⟩
  · exact h2 ⟨2, 9, 1, 80, 4, 1, 0, none⟩ (by decide) (by decide)
  · exact h4 ⟨1, "HYPE/USD", some 100, some 50, true⟩ (by decide)
      ⟨1, 7, 2, 500, 10, 3, 1, none⟩ (by decide) rfl rfl
  · exact h5 ⟨2, "ETH/USD", some 30, some 20, true⟩ (by decide)
      ⟨2, 9, 1, 80, 4, 1, 0, none⟩ (by decide) rfl (by decide)
  · exact h6 ⟨1, 450, 8, 2, 4⟩ (by decide) ⟨1, 7, 2, 500, 10, 3, 1, none⟩ (by decide) rfl rfl
  · exact h7 ⟨2, 70, 3, 1, 4⟩ (by decide) ⟨2, 9, 1, 80, 4, 1, 0, none⟩ (by decide) rfl (by decide)

/-! ### C8: analysis delta -/

theorem foldl_laterOf_mem :
    ∀ (l : List DailyRow) (b : Option DailyRow) (p : DailyRow),
      l.foldl laterOf b = some p → b = some p ∨ p ∈ l := by
  intro l
  induction l with
  | nil => intro b p h; exact Or.inl h
  | cons x t ih =>
      intro b p h
      have h' : t.foldl laterOf (laterOf b x) = some p := h
      rcases ih (laterOf b x) p h' with h1 | h1
      · cases b with
        | none =>
            have hx : x = p := by simpa [laterOf] using h1
            exact Or.inr (hx ▸ List.mem_cons_self x t)
        | some b' =>
            have h2 : (if b'.recorded_at < x.recorded_at then some x else some b') =
                some p := h1
            by_cases hlt : b'.recorded_at < x.recorded_at
            · rw [if_pos hlt] at h2
              exact Or.inr (Option.some.inj h2 ▸ List.mem_cons_self x t)
            · rw [if_neg hlt] at h2
              exact Or.inl h2
      · exact Or.inr (List.mem_cons_of_mem x h1)

theorem foldl_laterOf_ge_init :
    ∀ (l : List DailyRow) (b p : DailyRow),
      l.foldl laterOf (some b) = some p → b.recorded_at ≤ p.recorded_at := by
  intro l
  induction l with
  | nil =>
      intro b p h
      cases h
      exact Nat.le_refl _
  | cons x t ih =>
      intro b p h
      have h' : t.foldl laterOf
          (if b.recorded_at < x.recorded_at then some x else some b) = some p := h
      by_cases hlt : b.recorded_at < x.recorded_at
      · rw [if_pos hlt] at h'
        exact Nat.le_trans (Nat.le_of_lt hlt) (ih x p h')
      · rw [if_neg hlt] at h'
        exact ih b p h'

theorem foldl_laterOf_ge :
    ∀ (l : List DailyRow) (b : Option DailyRow) (p : DailyRow),
      l.foldl laterOf b = some p → ∀ x ∈ l, x.recorded_at ≤ p.recorded_at := by
  intro l
  induction l with
  | nil => intro b p h x hx; cases hx
  | cons y t ih =>
      intro b p h x hx
      have h' : t.foldl laterOf (laterOf b y) = some p := h
      rcases List.mem_cons.1 hx with rfl | hx'
      · have hc : ∃ c, laterOf b x = some c ∧ x.recorded_at ≤ c.recorded_at := by
          cases b with
          | none => exact ⟨x, rfl, Nat.le_refl _⟩
          | some b' =>
              by_cases hlt : b'.recorded_at < x.recorded_at
              · exact ⟨x, by simp [laterOf, hlt], Nat.le_refl _⟩
              · exact ⟨b', by simp [laterOf, hlt], Nat.le_of_not_lt hlt⟩
        obtain ⟨c, hceq, hyc⟩ := hc
        rw [hceq] at h'
        exact Nat.le_trans hyc (foldl_laterOf_ge_init t c p h')
      · exact ih (laterOf b y) p h' x hx'

theorem foldl_laterOf_total :
    ∀ (l : List DailyRow) (b : DailyRow), ∃ p, l.foldl laterOf (some b) = some p := by
  intro l
  induction l with
  | nil => intro b; exact ⟨b, rfl⟩
  | cons x t ih =>
      intro b
      have h' : (x :: t).foldl laterOf (some b) =
          t.foldl laterOf (if b.recorded_at < x.recorded_at then some x else some b) := rfl
      by_cases hlt : b.recorded_at < x.recorded_at
      · obtain ⟨p, hp⟩ := ih x
        exact ⟨p, by rw [h', if_pos hlt]; exact hp⟩
      · obtain ⟨p, hp⟩ := ih b
        exact ⟨p, by rw [h', if_neg hlt]; exact hp⟩

/-- C8: the analysis view's balance/points deltas are computed against the
single most recent daily-history snapshot strictly before the current
date: the selected snapshot belongs to the account, predates today and is
latest among all such rows, the deltas subtract exactly that one row, and
with no prior snapshot both deltas are zero. -/
theorem analysis_delta (hs : List DailyRow) (acc : AccountRow) (today : Nat) :
    (hs.filter (fun h => h.account_id == acc.id && decide (h.recorded_at < today)) = [] →
      latestPriorSnapshot hs acc.id today = none ∧
      analysisDiffSaldo hs acc today = 0 ∧ analysisDiffPoints hs acc today = 0) ∧
    (hs.filter (fun h => h.account_id == acc.id && decide (h.recorded_at < today)) ≠ [] →
      ∃ p, latestPriorSnapshot hs acc.id today = some p) ∧
    (∀ p, latestPriorSnapshot hs acc.id today = some p →
      p ∈ hs ∧ p.account_id = acc.id ∧ p.recorded_at < today ∧
      (∀ h ∈ hs, h.account_id = acc.id → h.recorded_at < today →
        h.recorded_at ≤ p.recorded_at) ∧
      analysisDiffSaldo hs acc today = acc.saldo - p.saldo ∧
      analysisDiffPoints hs acc today = acc.total_points - p.total_points) := by
  refine ⟨?_, ?_, ?_⟩
  · intro hfil
    have hnone : latestPriorSnapshot hs acc.id today = none := by
      rw [latestPriorSnapshot, hfil]
      rfl
    exact ⟨hnone, by rw [analysisDiffSaldo, hnone], by rw [analysisDiffPoints, hnone]⟩
  · intro hfil
    rcases hx : hs.filter
        (fun h => h.account_id == acc.id && decide (h.recorded_at < today)) with _ | ⟨x, t⟩
    · exact absurd hx hfil
    · have h0 : latestPriorSnapshot hs acc.id today = t.foldl laterOf (some x) := by
        rw [latestPriorSnapshot, hx]
        rfl
      obtain ⟨p, hp⟩ := foldl_laterOf_total t x
      exact ⟨p, by rw [h0, hp]⟩
  · intro p hp
    have hfold : (hs.filter
        (fun h => h.account_id == acc.id && decide (h.recorded_at < today))).foldl
          laterOf none = some p := hp
    have hmem : p ∈ hs.filter
        (fun h => h.account_id == acc.id && decide (h.recorded_at < today)) := by
      rcases foldl_laterOf_mem _ none p hfold with h1 | h1
      · cases h1
      · exact h1
    have hmem' := List.mem_filter.1 hmem
    have hkey : p.account_id = acc.id ∧ p.recorded_at < today := by
      have := hmem'.2
      simpa using this
    refine ⟨hmem'.1, hkey.1, hkey.2, ?_, by rw [analysisDiffSaldo, hp],
      by rw [analysisDiffPoints, hp]⟩
    intro h hh ha hlt
    have : h ∈ hs.filter
        (fun h => h.account_id == acc.id && decide (h.recorded_at < today)) :=
      List.mem_filter.2 ⟨hh, by simp [ha, hlt]⟩
    exact foldl_laterOf_ge _ none p hfold h this

/-- The daily-history list used by the C8 witness: one snapshot of account
1 recorded yesterday (day 4) with balance 1000. -/
def historyYesterday : List DailyRow :=
  [{ account_id := 1, saldo := 1000, total_points := 8, total_fees := 2, recorded_at := 4 }]

/-- The account row used by the C8 witness: balance 1200 today. -/
def accToday : AccountRow :=
  { id := 1, user_id := 7, account_number := 2, saldo := 1200, total_points := 9,
    total_fees := 3, pending_yield := 1, account_name := none }

/-- C8 witness: with yesterday's snapshot balance 1000 and today's balance
1200 the delta is +200; with no prior snapshot the delta is 0. -/
theorem analysis_delta_witness :
    latestPriorSnapshot historyYesterday accToday.id 5 =
      some { account_id := 1, saldo := 1000, total_points := 8, total_fees := 2,
             recorded_at := 4 } ∧
    analysisDiffSaldo historyYesterday accToday 5 = 200 ∧
    analysisDiffSaldo [] accToday 5 = 0 := by
  have h3 := (analysis_delta historyYesterday accToday 5).2.2
    { account_id := 1, saldo := 1000, total_points := 8, total_fees := 2, recorded_at := 4 }
    (by decide)
  have h1 := (analysis_delta ([] : List DailyRow) accToday 5).1 rfl
  refine ⟨by decide, ?_, h1.2.1⟩
  rw [h3.2.2.2.2.1]
  simp only [accToday]
  norm_num

/-! ### Daily-history upsert lemmas (used by C3 and C9) -/

theorem filter_map_pred {α : Type} (p : α → Bool) (f : α → α)
    (hf : ∀ a, p (f a) = p a) (l : List α) :
    (l.map f).filter p = (l.filter p).map f := by
  rw [List.filter_map]
  exact congrArg (List.map f) (List.filter_congr (fun a _ => hf a))

/-- The `UNIQUE(account_id, recorded_at)` constraint of `daily_history`: no
two rows share the (account, day) key. -/
def DailyUnique (hs : List DailyRow) : Prop :=
  hs.Pairwise fun h1 h2 =>
    ¬(h1.account_id = h2.account_id ∧ h1.recorded_at = h2.recorded_at)

instance (hs : List DailyRow) : Decidable (DailyUnique hs) := by
  unfold DailyUnique
  infer_instance

theorem DailyUnique.count_le_one {hs : List DailyRow} (hu : DailyUnique hs)
    (accId day : Nat) :
    (hs.filter (fun h => dailyKey h accId day)).length ≤ 1 := by
  induction hs with
  | nil => simp
  | cons x t ih =>
      unfold DailyUnique at hu
      rw [List.pairwise_cons] at hu
      cases hk : dailyKey x accId day with
      | true =>
          have hkey : x.account_id = accId ∧ x.recorded_at = day := by
            simpa [dailyKey] using hk
          have hnone : t.filter (fun h => dailyKey h accId day) = [] := by
            rw [List.filter_eq_nil_iff]
            intro y hy hky
            have hykey : y.account_id = accId ∧ y.recorded_at = day := by
              simpa [dailyKey] using hky
            exact hu.1 y hy ⟨hkey.1.trans hykey.1.symm, hkey.2.trans hykey.2.symm⟩
          simp [List.filter_cons, hk, hnone]
      | false =>
          have ht : DailyUnique t := hu.2
          simpa [List.filter_cons, hk] using ih ht

theorem dailyUpsert_unique {hs : List DailyRow} (hu : DailyUnique hs)
    (accId day : Nat) (sal pts fees : ℚ) :
    DailyUnique (dailyUpsert hs accId day sal pts fees) := by
  by_cases hany : hs.any (fun h => dailyKey h accId day) = true
  · simp only [dailyUpsert, hany, if_true]
    unfold DailyUnique at hu ⊢
    rw [List.pairwise_map]
    refine hu.imp ?_
    intro a b hab hk
    have hfix : ∀ h : DailyRow,
        ((if dailyKey h accId day then
            { h with saldo := sal, total_points := pts, total_fees := fees }
          else h) : DailyRow).account_id = h.account_id ∧
        ((if dailyKey h accId day then
            { h with saldo := sal, total_points := pts, total_fees := fees }
          else h) : DailyRow).recorded_at = h.recorded_at := by
      intro h
      by_cases hkh : dailyKey h accId day = true
      · rw [if_pos hkh]
        exact ⟨rfl, rfl⟩
      · rw [if_neg hkh]
        exact ⟨rfl, rfl⟩
    exact hab ⟨((hfix a).1.symm.trans hk.1).trans (hfix b).1,
      ((hfix a).2.symm.trans hk.2).trans (hfix b).2⟩
  · rw [Bool.not_eq_true] at hany
    simp only [dailyUpsert, hany, Bool.false_eq_true, if_false]
    have hall : ∀ x ∈ hs, ¬ dailyKey x accId day = true := by
      intro x hx hk
      rw [List.any_eq_false] at hany
      exact hany x hx hk
    unfold DailyUnique at hu ⊢
    rw [List.pairwise_append]
    refine ⟨hu, List.pairwise_singleton _ _, ?_⟩
    intro a ha b hb
    rcases List.mem_singleton.1 hb with rfl
    intro hk
    apply hall a ha
    simp only [dailySnapshotRow] at hk
    simp [dailyKey, hk.1, hk.2]

theorem dailyUpsert_filter_self (hs : List DailyRow) (accId day : Nat) (sal pts fees : ℚ)
    (hle : (hs.filter (fun h => dailyKey h accId day)).length ≤ 1) :
    (dailyUpsert hs accId day sal pts fees).filter (fun h => dailyKey h accId day) =
      [dailySnapshotRow accId day sal pts fees] := by
  by_cases hany : hs.any (fun h => dailyKey h accId day) = true
  · simp only [dailyUpsert, hany, if_true]
    have hpred : ∀ h : DailyRow,
        dailyKey ((if dailyKey h accId day then
            { h with saldo := sal, total_points := pts, total_fees := fees }
          else h) : DailyRow) accId day = dailyKey h accId day := by
      intro h
      by_cases hkh : dailyKey h accId day = true
      · rw [if_pos hkh, hkh]
        simpa [dailyKey] using hkh
      · rw [if_neg hkh]
    rw [filter_map_pred _ _ hpred]
    obtain ⟨x, hx, hkx⟩ := List.any_eq_true.1 hany
    rcases hf : hs.filter (fun h => dailyKey h accId day) with _ | ⟨x', t'⟩
    · exact absurd (List.mem_filter.2 ⟨hx, hkx⟩) (by rw [hf]; simp)
    · have ht' : t' = [] := by
        rw [hf] at hle
        simpa using List.length_eq_zero.1 (Nat.le_zero.1 (Nat.le_of_succ_le_succ hle))
      subst ht'
      have hx'k : dailyKey x' accId day = true := by
        have hmem : x' ∈ hs.filter (fun h => dailyKey h accId day) := by rw [hf]; simp
        exact (List.mem_filter.1 hmem).2
      have hx'key : x'.account_id = accId ∧ x'.recorded_at = day := by
        simpa [dailyKey] using hx'k
      simp only [List.map_cons, List.map_nil, hx'k, if_true]
      rw [show ({ x' with saldo := sal, total_points := pts, total_fees := fees } : DailyRow) =
        dailySnapshotRow accId day sal pts fees by
          simp [dailySnapshotRow, hx'key.1, hx'key.2]]
  · rw [Bool.not_eq_true] at hany
    simp only [dailyUpsert, hany, Bool.false_eq_true, if_false]
    have hnil : hs.filter (fun h => dailyKey h accId day) = [] := by
      rw [List.filter_eq_nil_iff]
      intro y hy hky
      rw [List.any_eq_false] at hany
      exact hany y hy hky
    rw [List.filter_append, hnil]
    simp [dailyKey, dailySnapshotRow]

theorem dailyUpsert_filter_other (hs : List DailyRow) (accId day : Nat)
    (sal pts fees : ℚ) (accId' day' : Nat) (hne : ¬(accId' = accId ∧ day' = day)) :
    (dailyUpsert hs accId day sal pts fees).filter (fun h => dailyKey h accId' day') =
      hs.filter (fun h => dailyKey h accId' day') := by
  by_cases hany : hs.any (fun h => dailyKey h accId day) = true
  · simp only [dailyUpsert, hany, if_true]
    have hpred : ∀ h : DailyRow,
        dailyKey ((if dailyKey h accId day then
            { h with saldo := sal, total_points := pts, total_fees := fees }
          else h) : DailyRow) accId' day' = dailyKey h accId' day' := by
      intro h
      by_cases hkh : dailyKey h accId day = true
      · rw [if_pos hkh]
        rfl
      · rw [if_neg hkh]
    rw [filter_map_pred _ _ hpred]
    have hid : ∀ h ∈ hs.filter (fun h => dailyKey h accId' day'),
        ((if dailyKey h accId day then
            { h with saldo := sal, total_points := pts, total_fees := fees }
          else h) : DailyRow) = h := by
      intro h hh
      have hk' : h.account_id = accId' ∧ h.recorded_at = day' := by
        simpa [dailyKey] using (List.mem_filter.1 hh).2
      by_cases hkh : dailyKey h accId day = true
      · have hk : h.account_id = accId ∧ h.recorded_at = day := by
          simpa [dailyKey] using hkh
        exact absurd ⟨hk'.1.symm.trans hk.1, hk'.2.symm.trans hk.2⟩ hne
      · rw [if_neg hkh]
    calc (hs.filter (fun h => dailyKey h accId' day')).map _
        = (hs.filter (fun h => dailyKey h accId' day')).map id :=
          List.map_congr_left hid
      _ = hs.filter (fun h => dailyKey h accId' day') := List.map_id _
  · rw [Bool.not_eq_true] at hany
    simp only [dailyUpsert, hany, Bool.false_eq_true, if_false]
    rw [List.filter_append]
    have hrow : dailyKey (dailySnapshotRow accId day sal pts fees) accId' day' = false := by
      simp only [dailyKey, dailySnapshotRow, Bool.and_eq_false_iff]
      by_cases h1 : accId = accId'
      · right
        simp only [beq_eq_false_iff_ne, ne_eq]
        intro h2
        exact hne ⟨h1.symm, h2.symm⟩
      · left
        simp [h1]
    simp [hrow]

/-! ### saveAccountData component lemmas -/

theorem accountUpsert_daily (s : Store) (uid : Int) (accNum : Nat)
    (data : ExtractionRecord) :
    (accountUpsert s uid accNum data).1.daily_history = s.daily_history := by
  cases h : lookupAccount s uid accNum <;> simp [accountUpsert, h]

theorem accountUpsert_positions (s : Store) (uid : Int) (accNum : Nat)
    (data : ExtractionRecord) :
    (accountUpsert s uid accNum data).1.positions = s.positions := by
  cases h : lookupAccount s uid accNum <;> simp [accountUpsert, h]

theorem saveAccountData_fields (s : Store) (uid : Int) (accNum : Nat)
    (data : ExtractionRecord) (today : Nat) :
    (saveAccountData s uid accNum data today).2.1 = (accountUpsert s uid accNum data).2 ∧
    (saveAccountData s uid accNum data today).2.2 = lookupAccount s uid accNum ∧
    (saveAccountData s uid accNum data today).1.daily_history =
      dailyUpsert s.daily_history (accountUpsert s uid accNum data).2.id today
        (accountUpsert s uid accNum data).2.saldo
        (accountUpsert s uid accNum data).2.total_points
        (accountUpsert s uid accNum data).2.total_fees ∧
    (saveAccountData s uid accNum data today).1.positions =
      replacePositions s.positions (accountUpsert s uid accNum data).2.id
        data.positions := by
  refine ⟨rfl, rfl, ?_, ?_⟩
  · show dailyUpsert (accountUpsert s uid accNum data).1.daily_history _ _ _ _ _ = _
    rw [accountUpsert_daily]
  · show replacePositions (accountUpsert s uid accNum data).1.positions _ _ = _
    rw [accountUpsert_positions]

/-! ### C3: one daily-history row per account per day -/

/-- C3: `daily_history` keeps at most one row per `(account, day)` key
(`DailyUnique`), every save preserves that invariant, and saving twice for
the same owner and slot on the same day leaves exactly one row for that day
for the account, holding the values produced by the second save. -/
theorem daily_history_one_row_per_day (s : Store) (uid : Int) (accNum : Nat)
    (data1 data2 : ExtractionRecord) (today : Nat)
    (hu : DailyUnique s.daily_history) :
    ∀ s1 a1 prev1, saveAccountData s uid accNum data1 today = (s1, a1, prev1) →
    ∀ s2 a2 prev2, saveAccountData s1 uid accNum data2 today = (s2, a2, prev2) →
      DailyUnique s1.daily_history ∧ DailyUnique s2.daily_history ∧
      a2.id = a1.id ∧
      s2.daily_history.filter (fun h => dailyKey h a2.id today) =
        [dailySnapshotRow a2.id today a2.saldo a2.total_points a2.total_fees] := by
  intro s1 a1 prev1 h1 s2 a2 prev2 h2
  have hf1 := saveAccountData_fields s uid accNum data1 today
  have hf2 := saveAccountData_fields s1 uid accNum data2 today
  have ha1 : (accountUpsert s uid accNum data1).2 = a1 := by
    rw [← hf1.1, h1]
  have ha2 : (accountUpsert s1 uid accNum data2).2 = a2 := by
    rw [← hf2.1, h2]
  have e1d : s1.daily_history =
      dailyUpsert s.daily_history a1.id today a1.saldo a1.total_points a1.total_fees := by
    rw [← ha1, ← hf1.2.2.1, h1]
  have e2d : s2.daily_history =
      dailyUpsert s1.daily_history a2.id today a2.saldo a2.total_points a2.total_fees := by
    rw [← ha2, ← hf2.2.2.1, h2]
  have hu1 : DailyUnique s1.daily_history := by
    rw [e1d]
    exact dailyUpsert_unique hu _ _ _ _ _
  have hu2 : DailyUnique s2.daily_history := by
    rw [e2d]
    exact dailyUpsert_unique hu1 _ _ _ _ _
  have hlook1 : lookupAccount s1 uid accNum = some a1 := by
    have := lookupAccount_save s uid accNum data1 today
    rw [h1] at this
    exact this
  have hida : a2.id = a1.id := by
    rw [← ha2, accountUpsert_found hlook1]
    rfl
  refine ⟨hu1, hu2, hida, ?_⟩
  rw [e2d]
  exact dailyUpsert_filter_self s1.daily_history a2.id today _ _ _
    (hu1.count_le_one a2.id today)

/-- The record with only a balance of 750, used by several witnesses. -/
def recordSaldo750 : ExtractionRecord := { emptyRecord with saldo := some 750 }

/-- C3 witness: saving twice on day 5 for owner 7 slot 2 of `sampleStore`
leaves exactly one history row for (account 1, day 5), holding the second
save's merged values (saldo 750, points 10, fees 3). -/
theorem daily_history_one_row_per_day_witness :
    DailyUnique sampleStore.daily_history ∧
    (saveAccountData (saveAccountData sampleStore 7 2 emptyRecord 5).1 7 2
        recordSaldo750 5).1.daily_history.filter (fun h => dailyKey h 1 5) =
      [dailySnapshotRow 1 5 750 10 3] := by
  refine ⟨by decide, ?_⟩
  have h := daily_history_one_row_per_day sampleStore 7 2 emptyRecord recordSaldo750 5
    (by decide)
    (saveAccountData sampleStore 7 2 emptyRecord 5).1
    ⟨1, 7, 2, 500, 10, 3, 1, none⟩
    (saveAccountData sampleStore 7 2 emptyRecord 5).2.2
    (by decide)
    (saveAccountData (saveAccountData sampleStore 7 2 emptyRecord 5).1 7 2
      recordSaldo750 5).1
    ⟨1, 7, 2, 750, 10, 3, 1, none⟩
    (saveAccountData (saveAccountData sampleStore 7 2 emptyRecord 5).1 7 2
      recordSaldo750 5).2.2
    (by decide)
  exact h.2.2.2

/-! ### C9: the daily snapshot records the merged values -/

/-- C9: the daily-history row written by `saveAccountData` for today holds
exactly the post-merge account values — the row agrees with the account row
stored for (owner, slot) after the save — and in particular a save whose
record has an absent or zero balance snapshots the retained prior
balance. -/
theorem daily_snapshot_post_merge (s : Store) (uid : Int) (accNum : Nat)
    (data : ExtractionRecord) (today : Nat) (hu : DailyUnique s.daily_history) :
    ∀ s1 a1 prev1, saveAccountData s uid accNum data today = (s1, a1, prev1) →
      (∀ a', lookupAccount s1 uid accNum = some a' →
        s1.daily_history.filter (fun h => dailyKey h a'.id today) =
          [dailySnapshotRow a'.id today a'.saldo a'.total_points a'.total_fees]) ∧
      (∀ a, lookupAccount s uid accNum = some a →
        (data.saldo = none ∨ data.saldo = some 0) → a1.saldo = a.saldo) := by
  intro s1 a1 prev1 h1
  have hf1 := saveAccountData_fields s uid accNum data today
  have ha1 : (accountUpsert s uid accNum data).2 = a1 := by
    rw [← hf1.1, h1]
  have e1d : s1.daily_history =
      dailyUpsert s.daily_history a1.id today a1.saldo a1.total_points a1.total_fees := by
    rw [← ha1, ← hf1.2.2.1, h1]
  have hlook1 : lookupAccount s1 uid accNum = some a1 := by
    have := lookupAccount_save s uid accNum data today
    rw [h1] at this
    exact this
  constructor
  · intro a' ha'
    have : a' = a1 := by
      rw [hlook1] at ha'
      exact (Option.some.inj ha').symm
    subst this
    rw [e1d]
    exact dailyUpsert_filter_self s.daily_history a'.id today _ _ _
      (hu.count_le_one a'.id today)
  · intro a ha hzero
    have : a1 = mergedAccount a data := by
      rw [← ha1, accountUpsert_found ha]
    rw [this]
    rcases hzero with hv | hv <;> simp [mergedAccount, mergeNum, orZero, hv]

/-- C9 witness: saving a record with `saldo` null over the existing balance
500 writes a day-5 history row holding the retained balance 500, not the
raw extracted value. -/
theorem daily_snapshot_post_merge_witness :
    DailyUnique sampleStore.daily_history ∧
    lookupAccount sampleStore 7 2 = some ⟨1, 7, 2, 500, 10, 3, 1, none⟩ ∧
    emptyRecord.saldo = none ∧
    (saveAccountData sampleStore 7 2 emptyRecord 5).1.daily_history.filter
        (fun h => dailyKey h 1 5) =
      [dailySnapshotRow 1 5 500 10 3] := by
  refine ⟨by decide, by decide, rfl, ?_⟩
  have h := daily_snapshot_post_merge sampleStore 7 2 emptyRecord 5 (by decide)
    (saveAccountData sampleStore 7 2 emptyRecord 5).1
    ⟨1, 7, 2, 500, 10, 3, 1, none⟩
    (saveAccountData sampleStore 7 2 emptyRecord 5).2.2
    (by decide)
  exact h.1 ⟨1, 7, 2, 500, 10, 3, 1, none⟩ (by decide)

/-! ### C2: position replacement -/

/-- A record carrying a balance and an explicitly empty position list. -/
def recordEmptyPositions : ExtractionRecord :=
  { emptyRecord with saldo := some 600, positions := some [] }

/-- C2 counterexample: the claim says the position set is fully replaced on
every save, including when the new record's position list is empty.  In
`sampleStore` account 1 holds one position; saving a record whose position
list is `some []` leaves that position attached instead of deleting it —
the guard `if (data.positions?.length > 0)` skips the delete. -/
theorem positions_empty_list_counterexample :
    recordEmptyPositions.positions = some [] ∧
    (saveAccountData sampleStore 7 2 recordEmptyPositions 5).1.positions.filter
        (fun p => p.account_id == 1) =
      [{ account_id := 1, pair := "HYPE/USD", position_size := some 100, apr := some 50,
         in_range := true }] := by
  constructor
  · rfl
  · decide

/-- C2 (amended): when the record's position list is non-empty, the
account's positions are fully replaced — all prior rows for the account are
deleted and exactly the extracted set is inserted, leaving other accounts'
rows untouched; when the list is empty or absent the position block is
skipped and the positions table is left unchanged. -/
theorem positions_full_replace (s : Store) (uid : Int) (accNum : Nat)
    (data : ExtractionRecord) (today : Nat) :
    ∀ s1 a1 prev1, saveAccountData s uid accNum data today = (s1, a1, prev1) →
      (∀ l, data.positions = some l → l ≠ [] →
        s1.positions.filter (fun p => p.account_id == a1.id) =
          l.map (positionRowOf a1.id) ∧
        (∀ accId', accId' ≠ a1.id →
          s1.positions.filter (fun p => p.account_id == accId') =
            s.positions.filter (fun p => p.account_id == accId'))) ∧
      ((data.positions = none ∨ data.positions = some []) →
        s1.positions = s.positions) := by
  intro s1 a1 prev1 h1
  have hf1 := saveAccountData_fields s uid accNum data today
  have ha1 : (accountUpsert s uid accNum data).2 = a1 := by
    rw [← hf1.1, h1]
  have e1p : s1.positions = replacePositions s.positions a1.id data.positions := by
    rw [← ha1, ← hf1.2.2.2, h1]
  constructor
  · intro l hl hne
    have hlen : l.length > 0 := List.length_pos.2 hne
    have hrep : s1.positions =
        s.positions.filter (fun p => !(p.account_id == a1.id)) ++
          l.map (positionRowOf a1.id) := by
      rw [e1p, hl, replacePositions, if_pos hlen]
    constructor
    · rw [hrep, List.filter_append]
      have hleft : (s.positions.filter (fun p => !(p.account_id == a1.id))).filter
          (fun p => p.account_id == a1.id) = [] := by
        rw [List.filter_eq_nil_iff]
        intro p hp hk
        have := (List.mem_filter.1 hp).2
        rw [hk] at this
        simp at this
      have hright : (l.map (positionRowOf a1.id)).filter
          (fun p => p.account_id == a1.id) = l.map (positionRowOf a1.id) := by
        rw [List.filter_eq_self]
        intro p hp
        obtain ⟨q, hq, rfl⟩ := List.mem_map.1 hp
        simp [positionRowOf]
      rw [hleft, hright, List.nil_append]
    · intro accId' hne'
      rw [hrep, List.filter_append]
      have hright : (l.map (positionRowOf a1.id)).filter
          (fun p => p.account_id == accId') = [] := by
        rw [List.filter_eq_nil_iff]
        intro p hp hk
        obtain ⟨q, hq, rfl⟩ := List.mem_map.1 hp
        have : a1.id = accId' := by simpa [positionRowOf] using hk
        exact hne' this.symm
      rw [hright, List.append_nil, List.filter_filter]
      refine List.filter_congr ?_
      intro p hp
      by_cases hk : p.account_id = accId'
      · have hpa : ¬(p.account_id = a1.id) := by
          rw [hk]
          exact hne'
        simp [hk, hne', hpa]
      · simp [hk]
  · intro hcase
    rcases hcase with hl | hl
    · rw [e1p, hl, replacePositions]
    · rw [e1p, hl, replacePositions]
      simp

/-- A record with a balance and two positions. -/
def recordTwoPositions : ExtractionRecord :=
  { emptyRecord with
    saldo := some 900
    positions := some
      [{ pair := "BTC/USD", positionSize := some 40, apr := some 12, range := none,
         currentPrice := none, status := some "In Range", unclaimed := none },
       { pair := "SOL/USD", positionSize := some 60, apr := some 33, range := none,
         currentPrice := none, status := some "Out of Range", unclaimed := none }] }

/-- C2 amended-claim witness: saving `recordTwoPositions` to owner 7 slot 2
replaces account 1's single prior position with exactly the two new rows
and leaves account 2's position untouched. -/
theorem positions_full_replace_witness :
    (saveAccountData sampleStore 7 2 recordTwoPositions 5).1.positions.filter
        (fun p => p.account_id == 1) =
      [{ account_id := 1, pair := "BTC/USD", position_size := some 40, apr := some 12,
         in_range := true },
       { account_id := 1, pair := "SOL/USD", position_size := some 60, apr := some 33,
         in_range := true }] ∧
    (saveAccountData sampleStore 7 2 recordTwoPositions 5).1.positions.filter
        (fun p => p.account_id == 2) =
      [{ account_id := 2, pair := "ETH/USD", position_size := some 30, apr := some 20,
         in_range := true }] := by
  have h := positions_full_replace sampleStore 7 2 recordTwoPositions 5
    (saveAccountData sampleStore 7 2 recordTwoPositions 5).1
    ⟨1, 7, 2, 900, 10, 3, 1, none⟩
    (saveAccountData sampleStore 7 2 recordTwoPositions 5).2.2
    (by decide)
  obtain ⟨hfull, -⟩ := h
  obtain ⟨hsame, hother⟩ := hfull
    [{ pair := "BTC/USD", positionSize := some 40, apr := some 12, range := none,
       currentPrice := none, status := some "In Range", unclaimed := none },
     { pair := "SOL/USD", positionSize := some 60, apr := some 33, range := none,
       currentPrice := none, status := some "Out of Range", unclaimed := none }]
    rfl (by decide)
  exact ⟨hsame, by rw [hother 2 (by decide)]; decide⟩

/-! ### C10: the in-range flag is never persisted -/

/-- C10: every position row inserted by `saveAccountData` carries
`in_range = true` (the schema default — the insert lists no `in_range`
column), whatever `status`/`range` the extraction produced; if all stored
rows are in-range, that stays true after any save; and the analysis view's
per-position status text is the same constant for every row. -/
theorem positions_in_range_default (s : Store) (uid : Int) (accNum : Nat)
    (data : ExtractionRecord) (today : Nat) :
    ∀ s1 a1 prev1, saveAccountData s uid accNum data today = (s1, a1, prev1) →
      (∀ p ∈ s1.positions, p ∈ s.positions ∨ p.in_range = true) ∧
      ((∀ p ∈ s.positions, p.in_range = true) → ∀ p ∈ s1.positions, p.in_range = true) ∧
      (∀ p q : PositionRow, renderPositionStatus p = renderPositionStatus q) := by
  intro s1 a1 prev1 h1
  have hf1 := saveAccountData_fields s uid accNum data today
  have ha1 : (accountUpsert s uid accNum data).2 = a1 := by
    rw [← hf1.1, h1]
  have e1p : s1.positions = replacePositions s.positions a1.id data.positions := by
    rw [← ha1, ← hf1.2.2.2, h1]
  have hmain : ∀ p ∈ s1.positions, p ∈ s.positions ∨ p.in_range = true := by
    intro p hp
    rw [e1p] at hp
    rcases hl : data.positions with _ | l
    · rw [hl, replacePositions] at hp
      exact Or.inl hp
    · rw [hl, replacePositions] at hp
      by_cases hlen : l.length > 0
      · rw [if_pos hlen] at hp
        rcases List.mem_append.1 hp with hp' | hp'
        · exact Or.inl (List.mem_filter.1 hp').1
        · obtain ⟨q, hq, rfl⟩ := List.mem_map.1 hp'
          exact Or.inr rfl
      · rw [if_neg hlen] at hp
        exact Or.inl hp
  refine ⟨hmain, ?_, fun p q => rfl⟩
  intro hall p hp
  rcases hmain p hp with hmem | htrue
  · exact hall p hmem
  · exact htrue

/-- C10 witness: saving a record whose position has `status` "Out of Range"
still stores the row with `in_range = true`, and every stored row stays
in-range. -/
theorem positions_in_range_default_witness :
    (∀ p ∈ sampleStore.positions, p.in_range = true) ∧
    (∀ p ∈ (saveAccountData sampleStore 7 2 recordTwoPositions 5).1.positions,
      p.in_range = true) ∧
    ({ account_id := 1, pair := "SOL/USD", position_size := some 60, apr := some 33,
       in_range := true } : PositionRow) ∈
      (saveAccountData sampleStore 7 2 recordTwoPositions 5).1.positions := by
  have h := positions_in_range_default sampleStore 7 2 recordTwoPositions 5
    (saveAccountData sampleStore 7 2 recordTwoPositions 5).1
    ⟨1, 7, 2, 900, 10, 3, 1, none⟩
    (saveAccountData sampleStore 7 2 recordTwoPositions 5).2.2
    (by decide)
  exact ⟨by decide, h.2.1 (by decide), by decide⟩

/-! ### C6: manual-balance flow -/

theorem saved_saldo_value (store : Store) (uid : Int) (slot : Nat)
    (data : ExtractionRecord) (v : ℚ) (today : Nat)
    (hv : data.saldo = some v) (hne : v ≠ 0) :
    ∃ a', lookupAccount (saveAccountData store uid slot data today).1 uid slot = some a' ∧
      a'.saldo = v := by
  have hsave := lookupAccount_save store uid slot data today
  cases hl : lookupAccount store uid slot with
  | some a =>
      refine ⟨(saveAccountData store uid slot data today).2.1, hsave, ?_⟩
      have heq : (saveAccountData store uid slot data today).2.1 = mergedAccount a data :=
        accountUpsert_found hl
      rw [heq]
      simp [mergedAccount, mergeNum, orZero, hv, hne]
  | none =>
      refine ⟨(saveAccountData store uid slot data today).2.1, hsave, ?_⟩
      have heq : (saveAccountData store uid slot data today).2.1 =
          freshAccount store.nextAccountId uid slot data := accountUpsert_not_found hl
      rw [heq]
      simp [freshAccount, orZero, hv]

/-- C6: with a pending extraction whose balance is absent, picking a slot
prompts for a manual number and performs no write; while waiting, an input
that does not parse as a number reprompts with no write; an input parsing
to `v` is merged into the pending record as the balance and the record is
persisted to the chosen slot (for non-zero `v` the stored balance is `v`). -/
theorem manual_balance_flow (uid : Int) (slot : Nat) (sess : Session) (store : Store)
    (today : Nat) (data : ExtractionRecord)
    (hdata : sess.pendingData = some data) (hnull : data.saldo = none) :
    saveToHandler uid slot (some sess) store today =
      (some { sess with accNum := some slot, inputMode := InputMode.waiting_saldo },
       store, BotReply.promptManualSaldo slot) ∧
    (∀ input, parseFloatQ (sanitizeSaldo input) = none →
      waitingSaldoHandler uid input
          { sess with accNum := some slot, inputMode := InputMode.waiting_saldo }
          store today =
        (some { sess with accNum := some slot, inputMode := InputMode.waiting_saldo },
         store, BotReply.invalidSaldo)) ∧
    (∀ input v, parseFloatQ (sanitizeSaldo input) = some v →
      waitingSaldoHandler uid input
          { sess with accNum := some slot, inputMode := InputMode.waiting_saldo }
          store today =
        (none, (saveAccountData store uid slot { data with saldo := some v } today).1,
         BotReply.savedWithSaldo slot) ∧
      (v ≠ 0 → ∃ a',
        lookupAccount (saveAccountData store uid slot { data with saldo := some v } today).1
          uid slot = some a' ∧ a'.saldo = v)) := by
  refine ⟨?_, ?_, ?_⟩
  · simp [saveToHandler, hdata, hnull]
  · intro input hp
    simp [waitingSaldoHandler, hp]
  · intro input v hp
    constructor
    · simp [waitingSaldoHandler, hp, hdata]
    · intro hne
      exact saved_saldo_value store uid slot { data with saldo := some v } v today rfl hne

/-- The session right after a successful extraction with no detected
balance. -/
def sampleSession : Session :=
  { inputMode := InputMode.waiting_data, pendingData := some emptyRecord, accNum := none }

/-- C6 witness: extraction with `saldo` null, user picks slot 2 → prompt,
no write; "abc" → reprompt, no write; "640.50" → balance 640.50 persisted
in (owner 7, slot 2). -/
theorem manual_balance_flow_witness :
    sampleSession.pendingData = some emptyRecord ∧
    emptyRecord.saldo = none ∧
    saveToHandler 7 2 (some sampleSession) sampleStore 5 =
      (some { sampleSession with accNum := some 2, inputMode := InputMode.waiting_saldo },
       sampleStore, BotReply.promptManualSaldo 2) ∧
    waitingSaldoHandler 7 "abc"
        { sampleSession with accNum := some 2, inputMode := InputMode.waiting_saldo }
        sampleStore 5 =
      (some { sampleSession with accNum := some 2, inputMode := InputMode.waiting_saldo },
       sampleStore, BotReply.invalidSaldo) ∧
    (∃ a', lookupAccount
        (saveAccountData sampleStore 7 2 { emptyRecord with saldo := some (640.50 : ℚ) } 5).1
        7 2 = some a' ∧ a'.saldo = (640.50 : ℚ)) := by
  have h := manual_balance_flow 7 2 sampleSession sampleStore 5 emptyRecord rfl rfl
  have hparse : parseFloatQ (sanitizeSaldo "640.50") = some (640.50 : ℚ) := by
    have h1 : parseFloatQ (sanitizeSaldo "640.50") =
        some (((640 : Nat) : ℚ) + ((50 : Nat) : ℚ) / ((10 : ℚ) ^ (2 : Nat))) := rfl
    rw [h1]
    norm_num
  refine ⟨rfl, rfl, h.1, h.2.1 "abc" (by decide), ?_⟩
  exact (h.2.2 "640.50" (640.50 : ℚ) hparse).2 (by norm_num)

end ProjectX
